import Mathlib

/-!
# TradeButler selective-AI dispatch core: shallow embedding

This file embeds the selective AI dispatch pipeline of the TradeButler
backend (company matcher, AI result cache, summarize task, selective
pipeline, follow endpoint) as executable Lean definitions, and proves or
refutes the specified properties about them.

Source files embedded:
* `backend/app/services/company_matcher.py` (`CompanyMatcher`)
* `backend/app/workers/tasks.py` (`get_cached_result`, `save_to_cache`,
  `call_openai_summary`, `summarize_task`)
* `backend/app/services/selective_ai_pipeline.py` (`SelectiveAIPipeline`)
* `backend/app/api/v1/companies.py` (`follow_company`)

Modelling conventions:
* SQLAlchemy rows become list-valued fields of a `DB` structure; `query(...)
  .filter(...).first()` becomes `(list.filter p).head?` / `List.find?`;
  commits apply the pending structure update.
* Python sets become `Finset Nat`; `list(set(xs))` (dedup with arbitrary
  order) is modelled deterministically as first-occurrence dedup
  (`dedupFirst`).
* Python exceptions in store reads become `Except String`; the OpenAI
  client becomes an abstract `provider` function; a ghost counter
  `aiCalls` counts real provider invocations.
* The pipeline session commits can raise (the reason the source wraps them
  in try/except); `Env.commitFailures` lists the content ids whose
  pipeline-level commit raises, in which case the pipeline session's
  pending changes are discarded and the except-branch result is returned.
-/

namespace TB

/-- `leadsWith pat l` is true when `pat` is an initial segment of `l`. -/
def leadsWith : List Char → List Char → Bool
  | [], _ => true
  | _ :: _, [] => false
  | x :: xs, y :: ys => x == y && leadsWith xs ys

/-- `hasInfix l pat` is true when `pat` occurs contiguously inside `l`. -/
def hasInfix (l pat : List Char) : Bool :=
  match l with
  | [] => leadsWith pat []
  | _ :: rest => leadsWith pat l || hasInfix rest pat

/-- Substring test, the semantics of Python `pat in s`. -/
def strContains (s pat : String) : Bool :=
  hasInfix s.toList pat.toList

/-- Python `str.lower()`, modelled character-wise. -/
def strLower (s : String) : String := String.mk (s.toList.map Char.toLower)

/-- Python `any(word in s for word in words)`. -/
def strContainsAny (s : String) (words : List String) : Bool :=
  words.any (fun w => strContains s w)

/-- Worker for `dedupFirst`; `seen` are the elements already emitted. -/
def ddAux (seen : List String) : List String → List String
  | [] => []
  | x :: xs => if seen.contains x then ddAux seen xs else x :: ddAux (seen ++ [x]) xs

/-- Deterministic model of Python `list(set(xs))`: keep the first
occurrence of each element, in order. -/
def dedupFirst (l : List String) : List String := ddAux [] l

/-- Python `max(l, default := d)` for a nonempty guard handled by the
caller: max of a list with a default for the empty list. -/
def pyMax (d : Int) : List Int → Int
  | [] => d
  | x :: xs => xs.foldl max x

/-- Row of the `companies` table (fields the core reads). -/
structure Company where
  id : Nat
  name : String
  industry : String
  deriving Repr, DecidableEq

/-- Row of the `user_followings` table (fields the core reads). -/
structure Following where
  user_id : String
  company_id : Nat
  priority : Int
  notification_enabled : Bool
  auto_summarize : Bool
  deriving Repr, DecidableEq

/-- Row of the `company_mentions` table (fields the core reads). -/
structure Mention where
  company_id : Nat
  content_id : Nat
  deriving Repr, DecidableEq

/-- Row of the `content` table (fields the core reads/writes).
`published_at` is the formatted date string when present (`strftime` in the
fallback path), `none` for a NULL date. Empty string/empty list stand for
SQL NULL in `insight`/`summary_bullets`/`tags`, matching Python truthiness. -/
structure ContentItem where
  id : Nat
  title : String
  source : String
  lang : String
  hash : String
  raw_text : String
  published_at : Option String
  summary_bullets : List String
  insight : String
  tags : List String
  deriving Repr, DecidableEq

/-- Row of the `ai_cache` table. -/
structure CacheEntry where
  content_hash : String
  model_version : String
  summary_bullets : List String
  tags : List String
  insight : String
  deriving Repr, DecidableEq

/-- The durable store, plus the ghost counter `aiCalls` of real AI-provider
invocations. -/
structure DB where
  companies : List Company
  followings : List Following
  mentions : List Mention
  contents : List ContentItem
  cache : List CacheEntry
  aiCalls : Nat
  deriving Repr, DecidableEq

/-- `MODEL_VERSION` in `workers/tasks.py`. -/
def MODEL_VERSION : String := "gpt-3.5-turbo"

/-- Outcome of one raw OpenAI chat-completion call: a parsed JSON reply,
a transport/API failure, or a malformed-JSON reply. -/
inductive ProviderOutcome where
  | ok (summary_bullets tags : List String) (insight : String)
  | apiError (msg : String)
  | jsonError
  deriving Repr, DecidableEq

/-- The dict returned by `call_openai_summary`. -/
structure AIResult where
  status : String
  summary_bullets : List String
  tags : List String
  insight : String
  deriving Repr, DecidableEq

/-- Ambient collaborators of the pipeline: the AI provider, and the set of
content ids whose pipeline-session commit raises (modelling the transient
store failures that the source guards with try/except). -/
structure Env where
  provider : ContentItem → ProviderOutcome
  commitFailures : List Nat

/-- `call_openai_summary` of `workers/tasks.py`: truncations on success,
fixed fallback payloads on `json_error` / `api_error`. -/
def call_openai_summary (provider : ContentItem → ProviderOutcome) (c : ContentItem) : AIResult :=
  match provider c with
  | .ok bullets tags insight =>
      { status := "success"
        summary_bullets := bullets.take 5
        tags := tags.take 8
        insight := insight.take 500 }
  | .jsonError =>
      { status := "json_error"
        summary_bullets :=
          ["기사 분석: " ++ c.title, "출처: " ++ c.source, "AI 분석 중 JSON 파싱 오류 발생"]
        tags := ["ai_processed", "json_error"]
        insight := "AI 분석 중 JSON 파싱 오류가 발생했습니다. 콘텐츠는 수집되었으나 상세 분석이 제한됩니다." }
  | .apiError e =>
      { status := "api_error"
        summary_bullets :=
          (["📰 " ++ c.title,
            "📅 발행일: " ++ c.published_at.getD "N/A",
            "🔗 출처: " ++ c.source,
            "⚠️ OpenAI API 호출 실패로 fallback 요약 사용"]).take 5
        tags := ["fallback", "api_error"]
        insight := "OpenAI API 호출 중 오류가 발생했습니다: " ++ e.take 200 ++ ". 기본 요약을 제공합니다." }

/-- `get_cached_result` of `workers/tasks.py` (the `filter_by(...).first()`
lookup on the `ai_cache` table). -/
def get_cached_result (db : DB) (h : String) : Option CacheEntry :=
  db.cache.find? (fun e => e.content_hash == h && e.model_version == MODEL_VERSION)

/-- The tag-merging block of `summarize_task` (lines 267-292 of
`workers/tasks.py`): remove one `pending_summary`, merge AI tags with the
structural tags, dedup twice as the source does, cap at 15. -/
def improvedTags (tags0 : List String) (lang title : String) (aiTags : List String) : List String :=
  let existing := if "pending_summary" ∈ tags0 then tags0.erase "pending_summary" else tags0
  let t1 := dedupFirst (existing ++ aiTags ++ ["ai_summarized", "processed"])
  let t2 := t1 ++ [if lang == "ko" then "korean" else "english"]
  let titleLower := strLower title
  let t3 := t2 ++ (if strContainsAny titleLower ["ai", "artificial", "intelligence"] then ["ai"] else [])
  let t4 := t3 ++ (if strContainsAny titleLower ["tech", "technology"] then ["technology"] else [])
  let t5 := t4 ++ (if strContainsAny titleLower ["crypto", "bitcoin", "blockchain"] then ["cryptocurrency"] else [])
  (dedupFirst t5).take 15

/-- The suffix that the tag merge appends after the existing tags: AI
tags, then the fixed structural tags determined by language and title. -/
def restList (lang title : String) (aiTags : List String) : List String :=
  aiTags ++ (["ai_summarized", "processed"] ++
    ([if lang == "ko" then "korean" else "english"] ++
      ((if strContainsAny (strLower title) ["ai", "artificial", "intelligence"] then ["ai"] else []) ++
       ((if strContainsAny (strLower title) ["tech", "technology"] then ["technology"] else []) ++
        (if strContainsAny (strLower title) ["crypto", "bitcoin", "blockchain"] then ["cryptocurrency"]
         else [])))))

/-- Replace the content row with the given id. -/
def updateContent (db : DB) (cid : Nat) (f : ContentItem → ContentItem) : DB :=
  { db with contents := db.contents.map (fun c => if c.id == cid then f c else c) }

/-- Result dict of `summarize_task` (keys the callers read). -/
structure TaskResult where
  content_id : Nat
  status : String
  ai_status : String
  cached : Bool
  deriving Repr, DecidableEq

/-- The cache-or-provider step of `summarize_task` (lines 248-265 of
`workers/tasks.py`): on a cache hit reuse the cached result; otherwise
invoke the provider (counted by `aiCalls`) and add the result to the cache
only when its status is `success`. -/
def aiStep (env : Env) (db : DB) (c : ContentItem) : AIResult × DB :=
  match get_cached_result db c.hash with
  | some e =>
      ({ status := "cached", summary_bullets := e.summary_bullets,
         tags := e.tags, insight := e.insight }, db)
  | none =>
    let r := call_openai_summary env.provider c
    let dbA := { db with aiCalls := db.aiCalls + 1 }
    if r.status == "success" then
      (r, { dbA with cache := dbA.cache ++
              [{ content_hash := c.hash, model_version := MODEL_VERSION,
                 summary_bullets := r.summary_bullets, tags := r.tags,
                 insight := r.insight }] })
    else (r, dbA)

/-- `summarize_task` of `workers/tasks.py`: look up the content; resolve
the AI result through `aiStep`; then merge tags and persist summary, tags
and insight onto the content row. -/
def summarize_task (env : Env) (db : DB) (content_id : Nat) : TaskResult × DB :=
  match db.contents.find? (fun c => c.id == content_id) with
  | none => ({ content_id := content_id, status := "not_found", ai_status := "", cached := false }, db)
  | some c =>
    let step := aiStep env db c
    let newTags := improvedTags c.tags c.lang c.title step.1.tags
    ({ content_id := content_id, status := "success", ai_status := step.1.status,
       cached := (get_cached_result db c.hash).isSome },
     updateContent step.2 content_id (fun co =>
       { co with summary_bullets := step.1.summary_bullets, tags := newTags,
                 insight := step.1.insight }))

/-- The AI tags that `summarize_task` will merge for content `c` in state
`db`: the cached entry's tags on a hit, the provider result's tags
otherwise. -/
def usedAiTags (env : Env) (db : DB) (c : ContentItem) : List String :=
  match get_cached_result db c.hash with
  | some e => e.tags
  | none => (call_openai_summary env.provider c).tags

/-! ## Company matcher (`services/company_matcher.py`) -/

/-- Entry of `matched_company_info`. -/
structure CompanyInfo where
  id : Nat
  name : String
  industry : String
  priority : Int
  deriving Repr, DecidableEq

/-- The dict returned by `should_auto_summarize`.  `matchFraction` models
the `match_ratio` key (exact rational instead of a float). -/
structure MatchResult where
  should_summarize : Bool
  matched_companies : Finset Nat
  matched_company_info : List CompanyInfo
  total_following : Nat
  total_content_companies : Nat
  matchFraction : ℚ
  max_priority : Int
  reason : String
  deriving DecidableEq

/-- The store reads that `should_auto_summarize` performs; each may raise
(the result is then an `Except.error` carrying the exception text). -/
structure MatcherStore where
  following : String → Except String (Finset Nat)
  contentCompanies : Nat → Except String (Finset Nat)
  companiesIn : Finset Nat → Except String (List Company)
  followingInfo : String → Nat → Except String (Option Following)

/-- The conservative no-match dict built in the except-branch of
`should_auto_summarize` (lines 127-138 of `company_matcher.py`). -/
def matcherErrorResult (e : String) : MatchResult :=
  { should_summarize := false
    matched_companies := ∅
    matched_company_info := []
    total_following := 0
    total_content_companies := 0
    matchFraction := 0
    max_priority := 0
    reason := "오류 발생: " ++ e }

/-- `_get_decision_reason` of `company_matcher.py`. -/
def decisionReason (should : Bool) (matched contentCs : Finset Nat) : String :=
  if should then
    "팔로잉 기업 " ++ toString matched.card ++ "개가 언급됨 (총 " ++
      toString contentCs.card ++ "개 기업 중)"
  else if contentCs = ∅ then "언급된 기업이 없음"
  else "팔로잉 기업이 언급되지 않음 (총 " ++ toString contentCs.card ++ "개 기업 중)"

/-- The success dict of `should_auto_summarize`, given the sets read from
the store and the `matched_company_info` list. -/
def buildResult (f cc : Finset Nat) (infos : List CompanyInfo) : MatchResult :=
  let matched := f ∩ cc
  { should_summarize := decide (0 < matched.card)
    matched_companies := matched
    matched_company_info := infos
    total_following := f.card
    total_content_companies := cc.card
    matchFraction := if cc = ∅ then 0 else (matched.card : ℚ) / (cc.card : ℚ)
    max_priority := if infos.isEmpty then 0 else pyMax 0 (infos.map (fun i => i.priority))
    reason := decisionReason (decide (0 < matched.card)) matched cc }

/-- The `matched_company_info` list-comprehension: for each company row
returned by the `Company.id.in_(matched)` query, read the user's following
row (`_get_company_priority`) and build the info dict; a raise at any
element propagates. -/
def buildInfos (st : MatcherStore) (user_id : String) : List Company → Except String (List CompanyInfo)
  | [] => .ok []
  | c :: rest =>
    match st.followingInfo user_id c.id with
    | .error e => .error e
    | .ok fi =>
      match buildInfos st user_id rest with
      | .error e => .error e
      | .ok tail =>
        .ok ({ id := c.id, name := c.name, industry := c.industry,
               priority := match fi with | some fo => fo.priority | none => 0 } :: tail)

/-- `should_auto_summarize` of `company_matcher.py`: read the following and
mention sets, intersect, optionally read the matched companies and their
priorities, and build the decision dict; any raise is caught and converted
to the conservative `matcherErrorResult`. -/
def should_auto_summarize (st : MatcherStore) (content_id : Nat) (user_id : String) : MatchResult :=
  match st.following user_id with
  | .error e => matcherErrorResult e
  | .ok f =>
    match st.contentCompanies content_id with
    | .error e => matcherErrorResult e
    | .ok cc =>
      let matched := f ∩ cc
      let infosE : Except String (List CompanyInfo) :=
        if matched = ∅ then .ok []
        else
          match st.companiesIn matched with
          | .error e => .error e
          | .ok comps => buildInfos st user_id comps
      match infosE with
      | .error e => matcherErrorResult e
      | .ok infos => buildResult f cc infos

/-- `CompanyMatcher.get_following_companies`: ids of rows of
`user_followings` for this user with `auto_summarize` set. -/
def followingCompaniesL (fs : List Following) (user_id : String) : Finset Nat :=
  ((fs.filter (fun f => f.user_id == user_id && f.auto_summarize)).map
    (fun f => f.company_id)).toFinset

/-- `CompanyMatcher.get_content_companies`: ids of mention rows for this
content. -/
def contentCompaniesL (ms : List Mention) (content_id : Nat) : Finset Nat :=
  ((ms.filter (fun m => m.content_id == content_id)).map
    (fun m => m.company_id)).toFinset

/-- `CompanyMatcher._get_company_priority`: the priority of the first
following row for `(user, company)`, else 0. -/
def companyPriorityL (fs : List Following) (user_id : String) (company_id : Nat) : Int :=
  match (fs.filter (fun f => f.user_id == user_id && f.company_id == company_id)).head? with
  | some f => f.priority
  | none => 0

/-- The matcher's store reads, instantiated by the relational tables (no
raise). -/
def mkMatcherStore (cs : List Company) (fs : List Following) (ms : List Mention) : MatcherStore :=
  { following := fun u => .ok (followingCompaniesL fs u)
    contentCompanies := fun cid => .ok (contentCompaniesL ms cid)
    companiesIn := fun s => .ok (cs.filter (fun c => decide (c.id ∈ s)))
    followingInfo := fun u cid =>
      .ok ((fs.filter (fun f => f.user_id == u && f.company_id == cid)).head?) }

/-- The matcher over the durable store. -/
def DB.matcherStore (db : DB) : MatcherStore :=
  mkMatcherStore db.companies db.followings db.mentions

/-! ## Selective AI pipeline (`services/selective_ai_pipeline.py`) -/

/-- Result dict of the single-item pipeline operations (keys the callers
read). -/
structure PipeResult where
  content_id : Nat
  status : String
  deriving Repr, DecidableEq

/-- The pipeline's tag swap on a content row: re-query the content, drop
every occurrence of `dropTag` when present, and append `addTags` (the
`content.tags` update block shared by `_auto_summarize` and
`_mark_for_on_demand`). -/
def pipe_tag_update (db : DB) (content_id : Nat) (dropTag : String) (addTags : List String) : DB :=
  match db.contents.find? (fun c => c.id == content_id) with
  | none => db
  | some c =>
    updateContent db content_id (fun co =>
      { co with tags := (if dropTag ∈ c.tags
                         then c.tags.filter (fun tag => tag != dropTag) else c.tags) ++ addTags })

/-- `SelectiveAIPipeline._auto_summarize`: run `summarize_task`, then
drop `pending_summary`, append `auto_summarized` and `following_company`,
and commit; if the commit raises, the pipeline session's pending tag
change is discarded and the except-branch dict is returned (the task's
own committed changes remain). -/
def auto_summarize_step (env : Env) (db : DB) (content_id : Nat) : PipeResult × DB :=
  if content_id ∈ env.commitFailures then
    ({ content_id := content_id, status := "auto_summarize_failed" },
     (summarize_task env db content_id).2)
  else
    ({ content_id := content_id, status := "auto_summarized" },
     pipe_tag_update (summarize_task env db content_id).2 content_id "pending_summary"
       ["auto_summarized", "following_company"])

/-- `SelectiveAIPipeline._mark_for_on_demand`: drop `pending_summary`,
append `on_demand_available`, commit; a raising commit discards the change
and returns the except-branch dict. -/
def mark_for_on_demand_step (env : Env) (db : DB) (content_id : Nat) : PipeResult × DB :=
  if content_id ∈ env.commitFailures then
    ({ content_id := content_id, status := "on_demand_setup_failed" }, db)
  else
    ({ content_id := content_id, status := "on_demand_available" },
     pipe_tag_update db content_id "pending_summary" ["on_demand_available"])

/-- `SelectiveAIPipeline.process_new_content`: consult the matcher, then
take the auto-summarize or the on-demand branch. -/
def process_new_content (env : Env) (db : DB) (content_id : Nat) (user_id : String) : PipeResult × DB :=
  let mr := should_auto_summarize (DB.matcherStore db) content_id user_id
  if mr.should_summarize then auto_summarize_step env db content_id
  else mark_for_on_demand_step env db content_id

/-- `SelectiveAIPipeline.trigger_on_demand_summary`: unknown content is an
error; content with non-empty insight and summary bullets returns
`already_summarized` without any AI work; otherwise run `summarize_task`
and swap `on_demand_available` for `on_demand_summarized` (the tag update
uses the content row as read before the task, as the source's session
does). -/
def trigger_on_demand_summary (env : Env) (db : DB) (content_id : Nat) (_user_id : String) : PipeResult × DB :=
  match db.contents.find? (fun c => c.id == content_id) with
  | none => ({ content_id := content_id, status := "error" }, db)
  | some c =>
    if c.insight != "" && !c.summary_bullets.isEmpty then
      ({ content_id := content_id, status := "already_summarized" }, db)
    else
      let db1 := (summarize_task env db content_id).2
      let t := if "on_demand_available" ∈ c.tags
               then c.tags.filter (fun tag => tag != "on_demand_available") else c.tags
      let db2 := updateContent db1 content_id (fun co =>
        { co with tags := t ++ ["on_demand_summarized"] })
      if content_id ∈ env.commitFailures then
        ({ content_id := content_id, status := "error" }, db1)
      else
        ({ content_id := content_id, status := "on_demand_summarized" }, db2)

/-- Aggregated counters of `process_batch_content`. -/
structure BatchResult where
  processed : Nat
  auto_summarized : Nat
  on_demand_available : Nat
  errors : Nat
  deriving Repr, DecidableEq

/-- One iteration of the batch loop: process the item, bump `processed`,
and classify the returned status exactly as the source's if/elif chain
does (note `"error" in status` is a substring test). -/
def batchStep (env : Env) (user_id : String) (acc : BatchResult × DB) (cid : Nat) : BatchResult × DB :=
  let r := process_new_content env acc.2 cid user_id
  let b := acc.1
  let b1 := { b with processed := b.processed + 1 }
  let b2 :=
    if r.1.status == "auto_summarized" then
      { b1 with auto_summarized := b1.auto_summarized + 1 }
    else if r.1.status == "on_demand_available" then
      { b1 with on_demand_available := b1.on_demand_available + 1 }
    else if strContains r.1.status "error" then
      { b1 with errors := b1.errors + 1 }
    else b1
  (b2, r.2)

/-- `SelectiveAIPipeline.process_batch_content`: query up to `limit`
contents currently tagged `pending_summary` and run the single-item
transition on each, aggregating counters. -/
def process_batch_content (env : Env) (db : DB) (user_id : String) (limit : Nat) : BatchResult × DB :=
  let items := ((db.contents.filter (fun c => "pending_summary" ∈ c.tags)).take limit).map
    (fun c => c.id)
  items.foldl (batchStep env user_id)
    ({ processed := 0, auto_summarized := 0, on_demand_available := 0, errors := 0 }, db)

/-! ## Follow endpoint (`api/v1/companies.py`) -/

/-- Response of the follow endpoint: a success payload or an HTTP error
status with its detail message. -/
inductive ApiResult where
  | success (company_name : String)
  | httpError (code : Nat) (detail : String)
  deriving Repr, DecidableEq

/-- The following row that `repo.create_user_following` inserts. -/
def mkFollowing (user_id : String) (company_id : Nat) (priority : Int)
    (notification_enabled auto_summarize : Bool) : Following :=
  { user_id := user_id, company_id := company_id, priority := priority,
    notification_enabled := notification_enabled, auto_summarize := auto_summarize }

/-- `follow_company` of `api/v1/companies.py`: 404 when the company does
not exist, 400 when a following row for `(user, company)` already exists,
otherwise insert the new following row. -/
def follow_company (db : DB) (company_id : Nat) (user_id : String) (priority : Int)
    (notification_enabled auto_summarize : Bool) : ApiResult × DB :=
  match db.companies.find? (fun c => c.id == company_id) with
  | none => (.httpError 404 "기업을 찾을 수 없습니다", db)
  | some comp =>
    match (db.followings.filter (fun f => f.user_id == user_id && f.company_id == company_id)).head? with
    | some _ => (.httpError 400 "이미 팔로잉 중인 기업입니다", db)
    | none =>
      (.success comp.name,
       { db with followings := db.followings ++
           [mkFollowing user_id company_id priority notification_enabled auto_summarize] })

/-! ## Derived observations used by the theorems -/

/-- The four mutually-exclusive processing tags of the content state
machine. -/
def processingTags : List String :=
  ["pending_summary", "auto_summarized", "on_demand_available", "on_demand_summarized"]

/-- How many distinct processing tags a tag list carries. -/
def procTagCount (tags : List String) : Nat :=
  (processingTags.filter (fun p => tags.contains p)).length

/-- The tag list of a content row (empty when the row is absent). -/
def contentTags (db : DB) (cid : Nat) : List String :=
  match db.contents.find? (fun c => c.id == cid) with
  | some c => c.tags
  | none => []

/-- The tag set of a content row. -/
def tagSet (db : DB) (cid : Nat) : Finset String := (contentTags db cid).toFinset

/-! ## Concrete fixtures for witnesses and counterexamples -/

/-- A company row. -/
def coA : Company := { id := 10, name := "Acme", industry := "tech" }

/-- User `u` follows company 10 with auto-summarize on, priority 3. -/
def fA : Following :=
  { user_id := "u", company_id := 10, priority := 3,
    notification_enabled := true, auto_summarize := true }

/-- Content 1 mentions company 10. -/
def mA : Mention := { company_id := 10, content_id := 1 }

/-- A freshly ingested content row, tagged `pending_summary` only. -/
def cPending : ContentItem :=
  { id := 1, title := "t", source := "s", lang := "en", hash := "h",
    raw_text := "r", published_at := none,
    summary_bullets := [], insight := "", tags := ["pending_summary"] }

/-- A small durable store: one company, one following, one mention, one
pending content, empty AI cache. -/
def dbM : DB :=
  { companies := [coA], followings := [fA], mentions := [mA],
    contents := [cPending], cache := [], aiCalls := 0 }

/-- An environment whose provider always fails with a transport error. -/
def envFail : Env := { provider := fun _ => .apiError "boom", commitFailures := [] }

/-- An environment whose provider always succeeds, commits never raise. -/
def envOk : Env := { provider := fun _ => .ok ["b1"] ["tag1"] "ins", commitFailures := [] }

/-- An environment where the pipeline-session commit for content 1 raises. -/
def envCommitFail : Env := { provider := fun _ => .ok ["b1"] ["tag1"] "ins", commitFailures := [1] }

/-- A matcher store whose following read raises. -/
def stErr : MatcherStore :=
  { following := fun _ => .error "redis down"
    contentCompanies := fun _ => .ok ∅
    companiesIn := fun _ => .ok []
    followingInfo := fun _ _ => .ok none }

/-! ## Basic lemmas about the embedding -/

theorem updateContent_followings (db : DB) (cid : Nat) (f : ContentItem → ContentItem) :
    (updateContent db cid f).followings = db.followings := rfl

theorem updateContent_mentions (db : DB) (cid : Nat) (f : ContentItem → ContentItem) :
    (updateContent db cid f).mentions = db.mentions := rfl

theorem updateContent_companies (db : DB) (cid : Nat) (f : ContentItem → ContentItem) :
    (updateContent db cid f).companies = db.companies := rfl

theorem updateContent_cache (db : DB) (cid : Nat) (f : ContentItem → ContentItem) :
    (updateContent db cid f).cache = db.cache := rfl

theorem updateContent_aiCalls (db : DB) (cid : Nat) (f : ContentItem → ContentItem) :
    (updateContent db cid f).aiCalls = db.aiCalls := rfl

theorem aiStep_followings (env : Env) (db : DB) (c : ContentItem) :
    (aiStep env db c).2.followings = db.followings := by
  unfold aiStep
  split
  · rfl
  · dsimp only
    split <;> rfl

theorem aiStep_mentions (env : Env) (db : DB) (c : ContentItem) :
    (aiStep env db c).2.mentions = db.mentions := by
  unfold aiStep
  split
  · rfl
  · dsimp only
    split <;> rfl

theorem aiStep_companies (env : Env) (db : DB) (c : ContentItem) :
    (aiStep env db c).2.companies = db.companies := by
  unfold aiStep
  split
  · rfl
  · dsimp only
    split <;> rfl

theorem aiStep_contents (env : Env) (db : DB) (c : ContentItem) :
    (aiStep env db c).2.contents = db.contents := by
  unfold aiStep
  split
  · rfl
  · dsimp only
    split <;> rfl

theorem summarize_task_followings (env : Env) (db : DB) (cid : Nat) :
    ((summarize_task env db cid).2).followings = db.followings := by
  unfold summarize_task
  split
  · rfl
  · exact aiStep_followings env db _

theorem summarize_task_mentions (env : Env) (db : DB) (cid : Nat) :
    ((summarize_task env db cid).2).mentions = db.mentions := by
  unfold summarize_task
  split
  · rfl
  · exact aiStep_mentions env db _

theorem summarize_task_companies (env : Env) (db : DB) (cid : Nat) :
    ((summarize_task env db cid).2).companies = db.companies := by
  unfold summarize_task
  split
  · rfl
  · exact aiStep_companies env db _

/-! ## C10: unknown content id -/

/-- C10: for a content id with no stored content row, `summarize_task`
returns status `not_found`, makes no AI-provider call, writes nothing to
the cache, and leaves the store unchanged. -/
theorem summarize_task_not_found (env : Env) (db : DB) (cid : Nat)
    (h : db.contents.find? (fun c => c.id == cid) = none) :
    summarize_task env db cid =
      ({ content_id := cid, status := "not_found", ai_status := "", cached := false }, db) := by
  unfold summarize_task
  rw [h]

/-- Witness for C10 at a concrete store: content 99 does not exist. -/
theorem summarize_task_not_found_w :
    summarize_task envOk dbM 99 =
      ({ content_id := 99, status := "not_found", ai_status := "", cached := false }, dbM) :=
  summarize_task_not_found envOk dbM 99 (by decide)

/-! ## C1: the cache prevents repeat AI calls only for successful results -/

theorem find?_map_update (l : List ContentItem) (cid : Nat) (f : ContentItem → ContentItem)
    (hid : ∀ c, (f c).id = c.id) :
    (l.map (fun c => if c.id == cid then f c else c)).find? (fun x => x.id == cid) =
      (l.find? (fun x => x.id == cid)).map f := by
  induction l with
  | nil => rfl
  | cons a t ih =>
    simp only [List.map_cons]
    cases h : a.id == cid with
    | true =>
      have hfa : ((f a).id == cid) = true := by rw [hid a]; exact h
      rw [if_pos rfl, @List.find?_cons_of_pos _ (fun x => x.id == cid) (f a) _ hfa,
        @List.find?_cons_of_pos _ (fun x => x.id == cid) a _ h]
      rfl
    | false =>
      have hneg : ¬ ((a.id == cid) = true) := by simp [h]
      rw [if_neg Bool.false_ne_true, @List.find?_cons_of_neg _ (fun x => x.id == cid) a _ hneg,
        @List.find?_cons_of_neg _ (fun x => x.id == cid) a _ hneg, ih]

theorem find?_updateContent (db : DB) (cid : Nat) (f : ContentItem → ContentItem)
    (hid : ∀ c, (f c).id = c.id) :
    (updateContent db cid f).contents.find? (fun x => x.id == cid) =
      (db.contents.find? (fun x => x.id == cid)).map f :=
  find?_map_update db.contents cid f hid

theorem find?_updateContent_tags (db : DB) (cid : Nat) (g : ContentItem → List String) :
    (updateContent db cid (fun co => { co with tags := g co })).contents.find?
        (fun x => x.id == cid) =
      (db.contents.find? (fun x => x.id == cid)).map (fun co => { co with tags := g co }) :=
  find?_updateContent db cid _ (fun _ => rfl)

theorem find?_updateContent_fields (db : DB) (cid : Nat) (b tg : List String) (ins : String) :
    (updateContent db cid (fun co =>
        { co with summary_bullets := b, tags := tg, insight := ins })).contents.find?
        (fun x => x.id == cid) =
      (db.contents.find? (fun x => x.id == cid)).map (fun co =>
        { co with summary_bullets := b, tags := tg, insight := ins }) :=
  find?_updateContent db cid _ (fun _ => rfl)

theorem pipe_tag_update_tags (db : DB) (cid : Nat) (drop : String) (add : List String)
    (c : ContentItem) (hc : db.contents.find? (fun x => x.id == cid) = some c) :
    contentTags (pipe_tag_update db cid drop add) cid =
      (if drop ∈ c.tags then c.tags.filter (fun tag => tag != drop) else c.tags) ++ add := by
  unfold pipe_tag_update
  rw [hc]
  dsimp only
  unfold contentTags
  rw [find?_updateContent_tags, hc]
  rfl

/-- Counterexample to C1 as stated: with a provider that fails, the first
`summarize_task` completes (status `success`, degraded fallback payload),
yet the second call for the same content hash does not resolve from the
cache (`cached = false`) and invokes the provider again (`aiCalls` rises
from 1 to 2). -/
theorem summarize_retry_after_failure_cex :
    (summarize_task envFail dbM 1).1.status = "success" ∧
    (summarize_task envFail dbM 1).2.aiCalls = 1 ∧
    (summarize_task envFail (summarize_task envFail dbM 1).2 1).1.cached = false ∧
    (summarize_task envFail (summarize_task envFail dbM 1).2 1).2.aiCalls = 2 := by
  decide

/-- C1 amended: the at-most-once guarantee holds for hashes present in the
AI cache — in particular after any summarize attempt whose provider call
succeeded. (1) If the cache holds the content's hash, `summarize_task`
makes no provider call, reports `cached`, and writes nothing to the cache;
(2) after a `summarize_task` whose provider call returns `success`, the
cache holds the content's hash. Failed attempts are not cached and are
retried (see the counterexample). -/
theorem ai_cache_at_most_once (env : Env) (db : DB) (cid : Nat) (c : ContentItem)
    (hc : db.contents.find? (fun x => x.id == cid) = some c) :
    ((get_cached_result db c.hash).isSome →
      (summarize_task env db cid).2.aiCalls = db.aiCalls ∧
      (summarize_task env db cid).1.cached = true ∧
      (summarize_task env db cid).2.cache = db.cache) ∧
    ((call_openai_summary env.provider c).status = "success" →
      (get_cached_result (summarize_task env db cid).2 c.hash).isSome) := by
  unfold summarize_task
  rw [hc]
  dsimp only
  constructor
  · intro hs
    unfold aiStep
    cases h2 : get_cached_result db c.hash with
    | none => rw [h2] at hs; simp at hs
    | some e => simp [updateContent]
  · intro hok
    unfold aiStep
    cases h2 : get_cached_result db c.hash with
    | some e =>
      unfold get_cached_result at h2 ⊢
      simp only [updateContent]
      simp [h2]
    | none =>
      unfold get_cached_result at h2 ⊢
      simp only [updateContent]
      simp only [hok, beq_self_eq_true, if_pos]
      simp [List.find?_append, h2]

/-- Witness for C1: after a successful summarize of content 1 the cache
holds its hash. -/
theorem ai_cache_at_most_once_w :
    (get_cached_result (summarize_task envOk dbM 1).2 cPending.hash).isSome = true :=
  (ai_cache_at_most_once envOk dbM 1 cPending (by decide)).2 (by decide)

/-! ## C9: failed summaries persist a fallback and are not retried on demand -/

theorem fallback_payload_nonempty (provider : ContentItem → ProviderOutcome) (c : ContentItem)
    (h : (call_openai_summary provider c).status ≠ "success") :
    (call_openai_summary provider c).summary_bullets ≠ [] ∧
    (call_openai_summary provider c).insight ≠ "" := by
  unfold call_openai_summary at h ⊢
  cases hp : provider c with
  | ok b t i => rw [hp] at h; simp at h
  | apiError e =>
    refine ⟨by simp, ?_⟩
    intro heq
    have hl := congrArg String.length heq
    rw [String.length_append, String.length_append] at hl
    have h0 : ("OpenAI API 호출 중 오류가 발생했습니다: ").length ≠ 0 := by decide
    have h1 : ("" : String).length = 0 := by decide
    omega
  | jsonError => exact ⟨by simp, by simp⟩

/-- C9: when the provider call fails (`api_error` or `json_error`),
`summarize_task` persists the degraded fallback bullets and insight onto
the content row without writing to the AI cache; since both fields are
then non-empty, `trigger_on_demand_summary` on the resulting state returns
`already_summarized` with the state unchanged — the failed summary is
never retried through the on-demand path. -/
theorem failed_summary_not_retried (env : Env) (db : DB) (cid : Nat) (c : ContentItem) (u : String)
    (hc : db.contents.find? (fun x => x.id == cid) = some c)
    (hmiss : get_cached_result db c.hash = none)
    (hfail : (call_openai_summary env.provider c).status ≠ "success") :
    (summarize_task env db cid).2.cache = db.cache ∧
    (∃ c2, (summarize_task env db cid).2.contents.find? (fun x => x.id == cid) = some c2 ∧
      c2.summary_bullets ≠ [] ∧ c2.insight ≠ "") ∧
    trigger_on_demand_summary env (summarize_task env db cid).2 cid u =
      ({ content_id := cid, status := "already_summarized" }, (summarize_task env db cid).2) := by
  have hbeq : ((call_openai_summary env.provider c).status == "success") = false :=
    beq_eq_false_iff_ne.mpr hfail
  have hstep : aiStep env db c = (call_openai_summary env.provider c,
      { db with aiCalls := db.aiCalls + 1 }) := by
    unfold aiStep
    rw [hmiss]
    dsimp only
    rw [hbeq]
    simp
  have hfb := fallback_payload_nonempty env.provider c hfail
  have hfind : (summarize_task env db cid).2.contents.find? (fun x => x.id == cid) =
      some { c with
        summary_bullets := (call_openai_summary env.provider c).summary_bullets,
        tags := improvedTags c.tags c.lang c.title (call_openai_summary env.provider c).tags,
        insight := (call_openai_summary env.provider c).insight } := by
    unfold summarize_task
    rw [hc]
    dsimp only
    rw [hstep]
    dsimp only
    rw [find?_updateContent]
    · rw [hc]
      rfl
    · exact fun x => rfl
  refine ⟨?_, ⟨_, hfind, hfb.1, hfb.2⟩, ?_⟩
  · unfold summarize_task
    rw [hc]
    dsimp only
    rw [updateContent_cache, hstep]
  · unfold trigger_on_demand_summary
    rw [hfind]
    have h1 : ((call_openai_summary env.provider c).insight != "") = true :=
      bne_iff_ne.mpr hfb.2
    have h2 : ((call_openai_summary env.provider c).summary_bullets.isEmpty) = false := by
      cases hb : (call_openai_summary env.provider c).summary_bullets with
      | nil => exact absurd hb hfb.1
      | cons x xs => simp [hb]
    dsimp only
    rw [h1, h2]
    simp

/-- Witness for C9 at a concrete store: failing provider on content 1. -/
theorem failed_summary_not_retried_w :
    trigger_on_demand_summary envFail (summarize_task envFail dbM 1).2 1 "u" =
      ({ content_id := 1, status := "already_summarized" }, (summarize_task envFail dbM 1).2) :=
  (failed_summary_not_retried envFail dbM 1 cPending "u" (by decide) (by decide)
    (by decide)).2.2

/-! ## C5: store-layer failures degrade to the conservative no-match result -/

/-- C5: whichever store-layer read inside `should_auto_summarize` raises
(the following read, the mention read, the matched-company read, or a
priority read), the exception does not propagate: the result is the
conservative dict with `should_summarize = false`, empty matched sets,
zero counts and ratio, and the error text in `reason`. -/
theorem matcher_fail_closed (st : MatcherStore) (cid : Nat) (u : String) (e : String) :
    (st.following u = .error e → should_auto_summarize st cid u = matcherErrorResult e) ∧
    (∀ f, st.following u = .ok f → st.contentCompanies cid = .error e →
      should_auto_summarize st cid u = matcherErrorResult e) ∧
    (∀ f cc, st.following u = .ok f → st.contentCompanies cid = .ok cc → f ∩ cc ≠ ∅ →
      st.companiesIn (f ∩ cc) = .error e →
      should_auto_summarize st cid u = matcherErrorResult e) ∧
    (∀ f cc co rest, st.following u = .ok f → st.contentCompanies cid = .ok cc →
      f ∩ cc ≠ ∅ → st.companiesIn (f ∩ cc) = .ok (co :: rest) →
      st.followingInfo u co.id = .error e →
      should_auto_summarize st cid u = matcherErrorResult e) := by
  refine ⟨?_, ?_, ?_, ?_⟩
  · intro h
    unfold should_auto_summarize
    rw [h]
  · intro f h1 h2
    unfold should_auto_summarize
    rw [h1, h2]
  · intro f cc h1 h2 hne h3
    unfold should_auto_summarize
    rw [h1, h2]
    dsimp only
    rw [if_neg hne, h3]
  · intro f cc co rest h1 h2 hne h3 h4
    unfold should_auto_summarize
    rw [h1, h2]
    dsimp only
    rw [if_neg hne, h3]
    unfold buildInfos
    rw [h4]

/-- Witness for C5: a store whose following read raises produces the
conservative error result. -/
theorem matcher_fail_closed_w :
    should_auto_summarize stErr 1 "u" = matcherErrorResult "redis down" :=
  (matcher_fail_closed stErr 1 "u" "redis down").1 rfl

/-! ## C8: the match ratio lies in the unit interval -/

theorem buildResult_fraction_bounds (f cc : Finset Nat) (infos : List CompanyInfo) :
    0 ≤ (buildResult f cc infos).matchFraction ∧
      (buildResult f cc infos).matchFraction ≤ 1 := by
  unfold buildResult
  dsimp only
  by_cases hcc : cc = ∅
  · rw [if_pos hcc]
    norm_num
  · rw [if_neg hcc]
    have hpos : 0 < (cc.card : ℚ) := by
      have := Finset.card_pos.mpr (Finset.nonempty_iff_ne_empty.mpr hcc)
      exact_mod_cast this
    constructor
    · positivity
    · rw [div_le_one hpos]
      exact_mod_cast Finset.card_le_card (Finset.inter_subset_right)

/-- C8: `match_ratio` lies in the interval from 0 to 1; and whenever the
content companies read yields the empty set, the ratio is 0, regardless of
the following set. -/
theorem match_fraction_in_unit_interval (st : MatcherStore) (cid : Nat) (u : String) :
    (0 ≤ (should_auto_summarize st cid u).matchFraction ∧
      (should_auto_summarize st cid u).matchFraction ≤ 1) ∧
    (st.contentCompanies cid = .ok ∅ →
      (should_auto_summarize st cid u).matchFraction = 0) := by
  unfold should_auto_summarize
  cases h1 : st.following u with
  | error e => exact ⟨⟨le_refl 0, by norm_num [matcherErrorResult]⟩, fun _ => rfl⟩
  | ok f =>
    cases h2 : st.contentCompanies cid with
    | error e => exact ⟨⟨le_refl 0, by norm_num [matcherErrorResult]⟩, fun _ => rfl⟩
    | ok cc =>
      dsimp only
      constructor
      · cases h3 : (if f ∩ cc = ∅ then Except.ok [] else
            match st.companiesIn (f ∩ cc) with
            | .error e => .error e
            | .ok comps => buildInfos st u comps : Except String (List CompanyInfo)) with
        | error e => exact ⟨le_refl 0, by norm_num [matcherErrorResult]⟩
        | ok infos => exact buildResult_fraction_bounds f cc infos
      · intro hcc
        injection hcc with hcc
        subst hcc
        rw [if_pos (Finset.inter_empty f)]
        unfold buildResult
        dsimp only
        rw [if_pos rfl]

/-- Witness for C8: content 99 has no mentions, so the ratio is 0. -/
theorem match_fraction_in_unit_interval_w :
    (should_auto_summarize (DB.matcherStore dbM) 99 "u").matchFraction = 0 :=
  (match_fraction_in_unit_interval (DB.matcherStore dbM) 99 "u").2 (by
    show Except.ok (contentCompaniesL dbM.mentions 99) = Except.ok ∅
    rw [show contentCompaniesL dbM.mentions 99 = ∅ from by decide])

/-! ## C2: matcher correctness over the durable store -/

theorem le_foldl_max (xs : List Int) (a : Int) : a ≤ xs.foldl max a := by
  induction xs generalizing a with
  | nil => exact le_refl a
  | cons x t ih => exact le_trans (le_max_left a x) (ih (max a x))

theorem mem_le_foldl_max (xs : List Int) : ∀ (a y : Int), y ∈ xs → y ≤ xs.foldl max a := by
  induction xs with
  | nil => intro a y hy; cases hy
  | cons x t ih =>
    intro a y hy
    rcases List.mem_cons.mp hy with h | h
    · subst h
      exact le_trans (le_max_right a y) (le_foldl_max t (max a y))
    · exact ih (max a x) y h

theorem foldl_max_mem (xs : List Int) (a : Int) : xs.foldl max a ∈ a :: xs := by
  induction xs generalizing a with
  | nil => exact List.mem_singleton.mpr rfl
  | cons x t ih =>
    have h := ih (max a x)
    rcases List.mem_cons.mp h with h1 | h1
    · rcases max_choice a x with hm | hm
      · exact List.mem_cons.mpr (Or.inl (h1.trans hm))
      · exact List.mem_cons.mpr (Or.inr (List.mem_cons.mpr (Or.inl (h1.trans hm))))
    · exact List.mem_cons.mpr (Or.inr (List.mem_cons.mpr (Or.inr h1)))

theorem mem_le_pyMax (d x : Int) (l : List Int) (hx : x ∈ l) : x ≤ pyMax d l := by
  cases l with
  | nil => cases hx
  | cons a t =>
    show x ≤ t.foldl max a
    rcases List.mem_cons.mp hx with h | h
    · subst h
      exact le_foldl_max t x
    · exact mem_le_foldl_max t a x h

theorem pyMax_mem (d : Int) (l : List Int) (hl : l ≠ []) : pyMax d l ∈ l := by
  cases l with
  | nil => exact absurd rfl hl
  | cons a t =>
    show t.foldl max a ∈ a :: t
    exact foldl_max_mem t a

theorem buildInfos_of_ok (st : MatcherStore) (u : String) (g : Nat → Option Following)
    (hst : ∀ i, st.followingInfo u i = .ok (g i)) (l : List Company) :
    buildInfos st u l = .ok (l.map (fun c =>
      { id := c.id, name := c.name, industry := c.industry,
        priority := match g c.id with | some fo => fo.priority | none => 0 })) := by
  induction l with
  | nil => rfl
  | cons a t ih =>
    unfold buildInfos
    rw [hst a.id, ih]
    rfl

/-- The set the claim calls the intersection of the user's auto-summarize
following set and the content's mentioned-company set. -/
def matchedOf (db : DB) (cid : Nat) (u : String) : Finset Nat :=
  followingCompaniesL db.followings u ∩ contentCompaniesL db.mentions cid

/-- The `matched_company_info` rows produced over the durable store. -/
def matchInfos (db : DB) (cid : Nat) (u : String) : List CompanyInfo :=
  (db.companies.filter (fun c => decide (c.id ∈ matchedOf db cid u))).map
    (fun c => { id := c.id, name := c.name, industry := c.industry,
                priority := companyPriorityL db.followings u c.id })

/-- Over the durable store every read succeeds, so the matcher returns the
`buildResult` dict on the two sets and the matched-company info rows. -/
theorem should_auto_summarize_db (db : DB) (cid : Nat) (u : String) :
    should_auto_summarize (DB.matcherStore db) cid u =
      buildResult (followingCompaniesL db.followings u) (contentCompaniesL db.mentions cid)
        (if matchedOf db cid u = ∅ then [] else matchInfos db cid u) := by
  have hshape : should_auto_summarize (DB.matcherStore db) cid u =
      match (if matchedOf db cid u = ∅ then Except.ok []
             else buildInfos (DB.matcherStore db) u
               (db.companies.filter (fun c => decide (c.id ∈ matchedOf db cid u))) :
             Except String (List CompanyInfo)) with
      | .error e => matcherErrorResult e
      | .ok infos => buildResult (followingCompaniesL db.followings u)
          (contentCompaniesL db.mentions cid) infos := rfl
  rw [hshape]
  by_cases hm : matchedOf db cid u = ∅
  · rw [if_pos hm, if_pos hm]
  · have hbi := buildInfos_of_ok (DB.matcherStore db) u
      (fun i => (db.followings.filter (fun f : Following => f.user_id == u && f.company_id == i)).head?)
      (fun i => rfl)
      (db.companies.filter (fun c => decide (c.id ∈ matchedOf db cid u)))
    rw [if_neg hm, if_neg hm, hbi]
    rfl

/-- C2: over the durable store (with referential integrity: every matched
company id has a company row), `should_summarize` holds iff the
intersection of the user's auto-summarize following set with the content's
mentioned-company set is non-empty; `matched_companies` is exactly that
intersection; and `max_priority` is the maximum of the per-company
priorities over the matched set, 0 when there is no match. -/
theorem matchInfos_priorities (db : DB) (cid : Nat) (u : String) :
    (matchInfos db cid u).map (fun x => x.priority) =
      (db.companies.filter (fun c => decide (c.id ∈ matchedOf db cid u))).map
        (fun c => companyPriorityL db.followings u c.id) := by
  unfold matchInfos
  rw [List.map_map]
  rfl

theorem matcher_correct (db : DB) (cid : Nat) (u : String)
    (hfk : ∀ i ∈ matchedOf db cid u, ∃ co ∈ db.companies, co.id = i) :
    ((should_auto_summarize (DB.matcherStore db) cid u).should_summarize = true ↔
      (matchedOf db cid u).Nonempty) ∧
    (should_auto_summarize (DB.matcherStore db) cid u).matched_companies = matchedOf db cid u ∧
    (∀ i ∈ matchedOf db cid u,
      companyPriorityL db.followings u i ≤
        (should_auto_summarize (DB.matcherStore db) cid u).max_priority) ∧
    ((matchedOf db cid u).Nonempty → ∃ i ∈ matchedOf db cid u,
      (should_auto_summarize (DB.matcherStore db) cid u).max_priority =
        companyPriorityL db.followings u i) ∧
    ((matchedOf db cid u) = ∅ →
      (should_auto_summarize (DB.matcherStore db) cid u).max_priority = 0) := by
  rw [should_auto_summarize_db]
  unfold buildResult
  dsimp only
  have hmeq : followingCompaniesL db.followings u ∩ contentCompaniesL db.mentions cid =
      matchedOf db cid u := rfl
  rw [hmeq]
  by_cases hm : matchedOf db cid u = ∅
  · rw [if_pos hm]
    refine ⟨?_, rfl, ?_, ?_, fun _ => rfl⟩
    · rw [hm]
      simp
    · intro i hi
      rw [hm] at hi
      cases hi
    · intro hne
      exact absurd hm (Finset.nonempty_iff_ne_empty.mp hne)
  · rw [if_neg hm]
    have hne := Finset.nonempty_iff_ne_empty.mpr hm
    obtain ⟨i0, hi0⟩ := hne
    obtain ⟨co0, hco0, hcoid0⟩ := hfk i0 hi0
    have hco0f : co0 ∈ db.companies.filter (fun c => decide (c.id ∈ matchedOf db cid u)) :=
      List.mem_filter.mpr ⟨hco0, by rw [hcoid0]; exact decide_eq_true hi0⟩
    have hinfos_ne : (matchInfos db cid u).isEmpty = false := by
      unfold matchInfos
      cases hflt : db.companies.filter (fun c => decide (c.id ∈ matchedOf db cid u)) with
      | nil => rw [hflt] at hco0f; cases hco0f
      | cons c0 crest => rfl
    rw [hinfos_ne, if_neg Bool.false_ne_true]
    refine ⟨?_, rfl, ?_, ?_, fun h0 => absurd h0 hm⟩
    · simp only [decide_eq_true_eq, Finset.card_pos]
    · intro i hi
      obtain ⟨co, hco, hcoid⟩ := hfk i hi
      have hcof : co ∈ db.companies.filter (fun c => decide (c.id ∈ matchedOf db cid u)) :=
        List.mem_filter.mpr ⟨hco, by rw [hcoid]; exact decide_eq_true hi⟩
      have hmem : companyPriorityL db.followings u i ∈
          (matchInfos db cid u).map (fun x => x.priority) := by
        rw [matchInfos_priorities]
        exact List.mem_map.mpr ⟨co, hcof, by rw [hcoid]⟩
      exact mem_le_pyMax 0 _ _ hmem
    · intro _
      have hlne : (matchInfos db cid u).map (fun x => x.priority) ≠ [] := by
        rw [matchInfos_priorities]
        intro hnil
        rw [List.map_eq_nil_iff] at hnil
        rw [hnil] at hco0f
        cases hco0f
      have hmax := pyMax_mem 0 _ hlne
      obtain ⟨info, hinfomem, hinfoeq⟩ := List.mem_map.mp hmax
      unfold matchInfos at hinfomem
      obtain ⟨co, hcomem, hcoeq⟩ := List.mem_map.mp hinfomem
      refine ⟨co.id, of_decide_eq_true (List.mem_filter.mp hcomem).2, ?_⟩
      rw [← hinfoeq, ← hcoeq]

/-- Witness for C2: at the concrete store, user `u` matches the mentioned
company of content 1. -/
theorem matcher_correct_w :
    (should_auto_summarize (DB.matcherStore dbM) 1 "u").should_summarize = true :=
  (matcher_correct dbM 1 "u" (by decide)).1.mpr (by decide)

/-! ## C6: duplicate follow rejection -/

/-- C6: `follow_company` for an existing company and a `(user, company)`
pair with no current following succeeds; calling it again for the same
pair returns the 400 already-following error, leaves the store unchanged,
and the store holds exactly one following row for the pair. -/
theorem follow_company_duplicate (db : DB) (cid : Nat) (u : String)
    (p p2 : Int) (n n2 a a2 : Bool) (comp : Company)
    (hcomp : db.companies.find? (fun c => c.id == cid) = some comp)
    (hnone : db.followings.filter (fun f => f.user_id == u && f.company_id == cid) = []) :
    (follow_company db cid u p n a).1 = .success comp.name ∧
    (follow_company (follow_company db cid u p n a).2 cid u p2 n2 a2).1 =
      .httpError 400 "이미 팔로잉 중인 기업입니다" ∧
    (follow_company (follow_company db cid u p n a).2 cid u p2 n2 a2).2 =
      (follow_company db cid u p n a).2 ∧
    ((follow_company db cid u p n a).2.followings.filter
      (fun f => f.user_id == u && f.company_id == cid)).length = 1 := by
  have hrow : ((mkFollowing u cid p n a).user_id == u &&
      (mkFollowing u cid p n a).company_id == cid) = true := by
    unfold mkFollowing
    simp
  have h1 : follow_company db cid u p n a = (.success comp.name,
      { db with followings := db.followings ++ [mkFollowing u cid p n a] }) := by
    unfold follow_company
    rw [hcomp, hnone]
    rfl
  rw [h1]
  dsimp only
  have hfilter : (db.followings ++ [mkFollowing u cid p n a]).filter
        (fun f => f.user_id == u && f.company_id == cid) = [mkFollowing u cid p n a] := by
    rw [List.filter_append, hnone]
    simp only [List.nil_append, List.filter_cons, hrow, if_true, List.filter_nil]
  have h2 : follow_company
      ({ db with followings := db.followings ++ [mkFollowing u cid p n a] }) cid u p2 n2 a2 =
      (.httpError 400 "이미 팔로잉 중인 기업입니다",
       { db with followings := db.followings ++ [mkFollowing u cid p n a] }) := by
    unfold follow_company
    rw [show ({ db with followings := db.followings ++ [mkFollowing u cid p n a] } : DB).companies =
        db.companies from rfl, hcomp]
    rw [show ({ db with followings := db.followings ++ [mkFollowing u cid p n a] } : DB).followings =
        db.followings ++ [mkFollowing u cid p n a] from rfl, hfilter]
    rfl
  rw [h2]
  refine ⟨rfl, rfl, rfl, ?_⟩
  rw [hfilter]
  rfl

/-- Witness for C6 at the concrete store: user `w` follows company 10
twice. -/
theorem follow_company_duplicate_w :
    (follow_company dbM 10 "w" 2 true true).1 = .success "Acme" ∧
    (follow_company (follow_company dbM 10 "w" 2 true true).2 10 "w" 2 true true).1 =
      .httpError 400 "이미 팔로잉 중인 기업입니다" :=
  have h := follow_company_duplicate dbM 10 "w" 2 2 true true true true coA
    (by decide) (by decide)
  ⟨h.1, h.2.1⟩

/-! ## Dedup lemmas -/

theorem contains_eq_decide_mem (l : List String) (a : String) :
    l.contains a = decide (a ∈ l) := List.elem_eq_mem a l

theorem contains_eq_false (l : List String) (a : String) (h : a ∉ l) : l.contains a = false := by
  rw [contains_eq_decide_mem]
  exact decide_eq_false h

theorem contains_eq_true (l : List String) (a : String) (h : a ∈ l) : l.contains a = true := by
  rw [contains_eq_decide_mem]
  exact decide_eq_true h

theorem mem_ddAux (x : String) (l : List String) : ∀ (seen : List String),
    x ∈ ddAux seen l ↔ x ∈ l ∧ x ∉ seen := by
  induction l with
  | nil =>
    intro seen
    unfold ddAux
    simp
  | cons a t ih =>
    intro seen
    unfold ddAux
    cases hc : seen.contains a with
    | true =>
      rw [if_pos rfl, ih seen]
      have ha : a ∈ seen := by
        rw [contains_eq_decide_mem] at hc
        exact of_decide_eq_true hc
      constructor
      · rintro ⟨hx, hns⟩
        exact ⟨List.mem_cons_of_mem a hx, hns⟩
      · rintro ⟨hx, hns⟩
        rcases List.mem_cons.mp hx with h1 | h1
        · subst h1
          exact absurd ha hns
        · exact ⟨h1, hns⟩
    | false =>
      rw [if_neg Bool.false_ne_true, List.mem_cons, ih (seen ++ [a])]
      have ha : a ∉ seen := by
        intro hs
        rw [contains_eq_true seen a hs] at hc
        cases hc
      constructor
      · rintro (h1 | ⟨hx, hns⟩)
        · subst h1
          exact ⟨List.mem_cons_self _ _, ha⟩
        · refine ⟨List.mem_cons_of_mem a hx, ?_⟩
          intro hs
          exact hns (List.mem_append.mpr (Or.inl hs))
      · rintro ⟨hx, hns⟩
        rcases List.mem_cons.mp hx with h1 | h1
        · exact Or.inl h1
        · by_cases hxa : x = a
          · exact Or.inl hxa
          · refine Or.inr ⟨h1, ?_⟩
            intro hs
            rcases List.mem_append.mp hs with h2 | h2
            · exact hns h2
            · exact hxa (List.mem_singleton.mp h2)

theorem mem_dedupFirst (x : String) (l : List String) : x ∈ dedupFirst l ↔ x ∈ l := by
  unfold dedupFirst
  rw [mem_ddAux]
  simp

theorem ddAux_cons (s : List String) (x : String) (xs : List String) :
    ddAux s (x :: xs) = if s.contains x then ddAux s xs else x :: ddAux (s ++ [x]) xs := rfl

theorem ddAux_congr (l : List String) : ∀ (s s' : List String),
    (∀ x, x ∈ s ↔ x ∈ s') → ddAux s l = ddAux s' l := by
  induction l with
  | nil => intro s s' _; rfl
  | cons a t ih =>
    intro s s' h
    rw [ddAux_cons, ddAux_cons]
    have hc : s.contains a = s'.contains a := by
      rw [contains_eq_decide_mem, contains_eq_decide_mem]
      exact decide_eq_decide.mpr (h a)
    rw [hc]
    cases hc2 : s'.contains a with
    | true => rw [if_pos rfl, if_pos rfl, ih s s' h]
    | false =>
      rw [if_neg Bool.false_ne_true, if_neg Bool.false_ne_true]
      have h2 : ∀ x, x ∈ s ++ [a] ↔ x ∈ s' ++ [a] := by
        intro x
        rw [List.mem_append, List.mem_append, h x]
      rw [ih (s ++ [a]) (s' ++ [a]) h2]

theorem ddAux_append (l1 l2 : List String) : ∀ (s : List String),
    ddAux s (l1 ++ l2) = ddAux s l1 ++ ddAux (s ++ l1) l2 := by
  induction l1 with
  | nil =>
    intro s
    rw [List.nil_append, List.append_nil]
    rfl
  | cons a t ih =>
    intro s
    rw [List.cons_append, ddAux_cons, ddAux_cons]
    cases hc : s.contains a with
    | true =>
      have ha : a ∈ s := by
        rw [contains_eq_decide_mem] at hc
        exact of_decide_eq_true hc
      have hcg : ∀ x, x ∈ s ++ a :: t ↔ x ∈ s ++ t := by
        intro x
        rw [List.mem_append, List.mem_append, List.mem_cons]
        constructor
        · rintro (h | h | h)
          · exact Or.inl h
          · exact Or.inl (h ▸ ha)
          · exact Or.inr h
        · rintro (h | h)
          · exact Or.inl h
          · exact Or.inr (Or.inr h)
      rw [if_pos rfl, if_pos rfl, ih s, ddAux_congr l2 (s ++ a :: t) (s ++ t) hcg]
    | false =>
      have hcg : ∀ x, x ∈ s ++ [a] ++ t ↔ x ∈ s ++ a :: t := by
        intro x
        rw [List.append_assoc, List.singleton_append]
      rw [if_neg Bool.false_ne_true, if_neg Bool.false_ne_true, List.cons_append,
        ih (s ++ [a]), ddAux_congr l2 (s ++ [a] ++ t) (s ++ a :: t) hcg]

theorem ddAux_nil_of_all_seen (l : List String) : ∀ (s : List String),
    (∀ x ∈ l, x ∈ s) → ddAux s l = [] := by
  induction l with
  | nil => intro s _; rfl
  | cons a t ih =>
    intro s h
    unfold ddAux
    rw [contains_eq_true s a (h a (List.mem_cons_self _ _)), if_pos rfl]
    exact ih s (fun x hx => h x (List.mem_cons_of_mem a hx))

theorem ddAux_of_nodup (l : List String) : ∀ (s : List String), l.Nodup →
    (∀ x ∈ l, x ∉ s) → ddAux s l = l := by
  induction l with
  | nil => intro s _ _; rfl
  | cons a t ih =>
    intro s hnd hdisj
    unfold ddAux
    rw [contains_eq_false s a (hdisj a (List.mem_cons_self _ _)), if_neg Bool.false_ne_true,
      ih (s ++ [a]) (List.nodup_cons.mp hnd).2 ?_]
    intro x hx hmem
    rcases List.mem_append.mp hmem with h1 | h1
    · exact hdisj x (List.mem_cons_of_mem a hx) h1
    · exact (List.nodup_cons.mp hnd).1 (List.mem_singleton.mp h1 ▸ hx)

theorem nodup_ddAux (l : List String) : ∀ (s : List String), (ddAux s l).Nodup := by
  induction l with
  | nil => intro s; exact List.nodup_nil
  | cons a t ih =>
    intro s
    unfold ddAux
    cases hc : s.contains a with
    | true => rw [if_pos rfl]; exact ih s
    | false =>
      rw [if_neg Bool.false_ne_true, List.nodup_cons]
      refine ⟨?_, ih (s ++ [a])⟩
      intro hmem
      exact ((mem_ddAux a t (s ++ [a])).mp hmem).2 (List.mem_append.mpr (Or.inr (List.mem_singleton.mpr rfl)))

theorem nodup_dedupFirst (l : List String) : (dedupFirst l).Nodup := nodup_ddAux l []

/-! ## C7: batch processing -/

theorem batchStep_processed (env : Env) (u : String) (acc : BatchResult × DB) (cid : Nat) :
    (batchStep env u acc cid).1.processed = acc.1.processed + 1 := by
  unfold batchStep
  dsimp only
  split
  · rfl
  · split
    · rfl
    · split <;> rfl

theorem batchStep_sum (env : Env) (u : String) (acc : BatchResult × DB) (cid : Nat) :
    (batchStep env u acc cid).1.auto_summarized + (batchStep env u acc cid).1.on_demand_available +
      (batchStep env u acc cid).1.errors ≤
      acc.1.auto_summarized + acc.1.on_demand_available + acc.1.errors + 1 := by
  unfold batchStep
  dsimp only
  split
  · dsimp only; omega
  · split
    · dsimp only; omega
    · split
      · dsimp only; omega
      · dsimp only; omega

theorem batch_fold_invariant (env : Env) (u : String) (ids : List Nat) :
    ∀ (acc : BatchResult × DB),
      ((ids.foldl (batchStep env u) acc).1.processed = acc.1.processed + ids.length) ∧
      (acc.1.auto_summarized + acc.1.on_demand_available + acc.1.errors ≤ acc.1.processed →
        (ids.foldl (batchStep env u) acc).1.auto_summarized +
          (ids.foldl (batchStep env u) acc).1.on_demand_available +
          (ids.foldl (batchStep env u) acc).1.errors ≤
          (ids.foldl (batchStep env u) acc).1.processed) := by
  induction ids with
  | nil => intro acc; exact ⟨by simp, fun h => h⟩
  | cons x t ih =>
    intro acc
    rw [List.foldl_cons]
    obtain ⟨hp, hs⟩ := ih (batchStep env u acc x)
    constructor
    · rw [hp, batchStep_processed]
      simp [List.length_cons]
      omega
    · intro hsum
      refine hs ?_
      have h1 := batchStep_sum env u acc x
      have h2 := batchStep_processed env u acc x
      omega

/-- Counterexample to the counter-sum part of C7: one pending item whose
pipeline commit raises is processed (status `on_demand_setup_failed`) but
counted in none of the three counters, so they sum to 0 while `processed`
is 1. -/
theorem batch_counters_cex :
    (process_batch_content envCommitFail dbM "a" 50).1.processed = 1 ∧
    (process_batch_content envCommitFail dbM "a" 50).1.auto_summarized +
      (process_batch_content envCommitFail dbM "a" 50).1.on_demand_available +
      (process_batch_content envCommitFail dbM "a" 50).1.errors = 0 := by
  decide

/-- C7 amended: the batch processes exactly `min limit (number of items
tagged pending_summary)` items — in particular at most `limit`, and a
single item's failure never aborts the batch (every selected item is
processed, whatever the environment's failures); each processed item is
counted in at most one of the three counters, so their sum is at most
`processed` (items whose helper step fails get status
`auto_summarize_failed`/`on_demand_setup_failed` and are counted in none,
so the sum can fall short of `processed`). -/
theorem batch_bounded_and_isolated (env : Env) (db : DB) (u : String) (limit : Nat) :
    (process_batch_content env db u limit).1.processed =
      min limit (db.contents.filter (fun c => "pending_summary" ∈ c.tags)).length ∧
    (process_batch_content env db u limit).1.auto_summarized +
      (process_batch_content env db u limit).1.on_demand_available +
      (process_batch_content env db u limit).1.errors ≤
      (process_batch_content env db u limit).1.processed := by
  unfold process_batch_content
  dsimp only
  obtain ⟨hp, hs⟩ := batch_fold_invariant env u
    (((db.contents.filter (fun c => "pending_summary" ∈ c.tags)).take limit).map (fun c => c.id))
    ({ processed := 0, auto_summarized := 0, on_demand_available := 0, errors := 0 }, db)
  refine ⟨?_, hs (by simp)⟩
  rw [hp]
  simp [List.length_take]

/-! ## C4: processing-tag exclusivity -/

theorem aiStep_tags (env : Env) (db : DB) (c : ContentItem) :
    (aiStep env db c).1.tags = usedAiTags env db c := by
  unfold aiStep usedAiTags
  cases h : get_cached_result db c.hash with
  | some e => rfl
  | none =>
    dsimp only
    split <;> rfl

theorem mem_of_mem_ite_nil (b : Prop) [Decidable b] (l : List String) (x : String)
    (h : x ∈ (if b then l else [])) : x ∈ l := by
  by_cases hb : b
  · rwa [if_pos hb] at h
  · rw [if_neg hb] at h
    cases h

/-- Every merged tag comes from the existing tags, the AI tags, or the
fixed structural-tag vocabulary. -/
theorem mem_improvedTags (tags0 : List String) (lang title : String) (aiTags : List String)
    (x : String) (hx : x ∈ improvedTags tags0 lang title aiTags) :
    x ∈ tags0 ∨ x ∈ aiTags ∨
      x ∈ ["ai_summarized", "processed", "korean", "english", "ai", "technology",
           "cryptocurrency"] := by
  unfold improvedTags at hx
  dsimp only at hx
  have h1 := List.mem_of_mem_take hx
  rw [mem_dedupFirst] at h1
  rcases List.mem_append.mp h1 with h2 | h2
  · rcases List.mem_append.mp h2 with h3 | h3
    · rcases List.mem_append.mp h3 with h4 | h4
      · rcases List.mem_append.mp h4 with h5 | h5
        · rw [mem_dedupFirst] at h5
          rcases List.mem_append.mp h5 with h6 | h6
          · rcases List.mem_append.mp h6 with h7 | h7
            · by_cases hp : "pending_summary" ∈ tags0
              · rw [if_pos hp] at h7
                exact Or.inl (List.mem_of_mem_erase h7)
              · rw [if_neg hp] at h7
                exact Or.inl h7
            · exact Or.inr (Or.inl h7)
          · rcases List.mem_cons.mp h6 with h7 | h7
            · subst h7; right; right; simp
            · rcases List.mem_cons.mp h7 with h8 | h8
              · subst h8; right; right; simp
              · cases h8
        · rcases List.mem_cons.mp h5 with h6 | h6
          · right; right
            by_cases hl : lang == "ko"
            · rw [if_pos hl] at h6
              subst h6; simp
            · rw [if_neg hl] at h6
              subst h6; simp
          · cases h6
      · have h5 := mem_of_mem_ite_nil _ _ _ h4
        rcases List.mem_singleton.mp h5 with h6
        subst h6; right; right; simp
    · have h5 := mem_of_mem_ite_nil _ _ _ h3
      rcases List.mem_singleton.mp h5 with h6
      subst h6; right; right; simp
  · have h5 := mem_of_mem_ite_nil _ _ _ h2
    rcases List.mem_singleton.mp h5 with h6
    subst h6; right; right; simp

theorem procTagCount_eq (tags : List String) :
    procTagCount tags = (if "pending_summary" ∈ tags then 1 else 0) +
      ((if "auto_summarized" ∈ tags then 1 else 0) +
       ((if "on_demand_available" ∈ tags then 1 else 0) +
        (if "on_demand_summarized" ∈ tags then 1 else 0))) := by
  unfold procTagCount processingTags
  by_cases hp : "pending_summary" ∈ tags <;>
    by_cases ha : "auto_summarized" ∈ tags <;>
    by_cases ho : "on_demand_available" ∈ tags <;>
    by_cases hs : "on_demand_summarized" ∈ tags <;>
    simp [List.filter, contains_eq_decide_mem, hp, ha, ho, hs]

/-- The content row after `summarize_task`, when the content exists. -/
theorem summarize_task_row (env : Env) (db : DB) (cid : Nat) (c : ContentItem)
    (hc : db.contents.find? (fun x => x.id == cid) = some c) :
    (summarize_task env db cid).2.contents.find? (fun x => x.id == cid) =
      some { c with
               summary_bullets := (aiStep env db c).1.summary_bullets,
               tags := improvedTags c.tags c.lang c.title (aiStep env db c).1.tags,
               insight := (aiStep env db c).1.insight } := by
  unfold summarize_task
  rw [hc]
  dsimp only
  rw [find?_updateContent_fields, aiStep_contents, hc]
  rfl

/-- Counterexample to C4 as stated: content 1 starts with exactly
`pending_summary`; processing it for a non-matching user leaves
`on_demand_available`, and re-processing for a matching user then adds
`auto_summarized` without removing `on_demand_available` — a reachable
state carrying two processing tags. -/
theorem tag_exclusivity_cex :
    procTagCount (contentTags (process_new_content envOk
      (process_new_content envOk dbM 1 "a").2 1 "u").2 1) = 2 := by
  decide

/-- C4 amended: a content item whose only processing tag is
`pending_summary` carries exactly one processing tag after a single
`process_new_content` (with AI tags free of the on-demand tags and a
non-raising commit); the exclusivity does not hold across all reachable
states (see the counterexample, where reprocessing under another user
yields two processing tags). -/
theorem tag_exclusive_after_first_process (env : Env) (db : DB) (cid : Nat) (u : String)
    (c : ContentItem)
    (hc : db.contents.find? (fun x => x.id == cid) = some c)
    (hpend : "pending_summary" ∈ c.tags)
    (h1 : "auto_summarized" ∉ c.tags)
    (h2 : "on_demand_available" ∉ c.tags)
    (h3 : "on_demand_summarized" ∉ c.tags)
    (h4 : "on_demand_available" ∉ usedAiTags env db c)
    (h5 : "on_demand_summarized" ∉ usedAiTags env db c)
    (hcf : cid ∉ env.commitFailures) :
    procTagCount (contentTags (process_new_content env db cid u).2 cid) = 1 := by
  unfold process_new_content
  by_cases hss : (should_auto_summarize (DB.matcherStore db) cid u).should_summarize
  · rw [if_pos hss]
    have htask := summarize_task_row env db cid c hc
    unfold auto_summarize_step
    rw [if_neg hcf]
    dsimp only
    rw [pipe_tag_update_tags _ _ _ _ _ htask]
    dsimp only
    set nt := improvedTags c.tags c.lang c.title (aiStep env db c).1.tags with hnt
    have hnt_od : "on_demand_available" ∉ nt := by
      intro hmem
      rcases mem_improvedTags _ _ _ _ _ hmem with h | h | h
      · exact h2 h
      · rw [aiStep_tags] at h
        exact h4 h
      · simp at h
    have hnt_ods : "on_demand_summarized" ∉ nt := by
      intro hmem
      rcases mem_improvedTags _ _ _ _ _ hmem with h | h | h
      · exact h3 h
      · rw [aiStep_tags] at h
        exact h5 h
      · simp at h
    have htsub : ∀ x, x ∈ (if "pending_summary" ∈ nt
        then nt.filter (fun tag => tag != "pending_summary") else nt) → x ∈ nt := by
      intro x hmem
      by_cases hpn : "pending_summary" ∈ nt
      · rw [if_pos hpn] at hmem
        exact (List.mem_filter.mp hmem).1
      · rwa [if_neg hpn] at hmem
    have hpt : "pending_summary" ∉ (if "pending_summary" ∈ nt
        then nt.filter (fun tag => tag != "pending_summary") else nt) := by
      by_cases hpn : "pending_summary" ∈ nt
      · rw [if_pos hpn]
        intro hmem
        have := (List.mem_filter.mp hmem).2
        simp at this
      · rw [if_neg hpn]
        exact hpn
    rw [procTagCount_eq]
    rw [if_neg (by
      intro hmem
      rcases List.mem_append.mp hmem with h | h
      · exact hpt h
      · simp at h)]
    rw [if_pos (by
      refine List.mem_append.mpr (Or.inr ?_)
      simp)]
    rw [if_neg (by
      intro hmem
      rcases List.mem_append.mp hmem with h | h
      · exact hnt_od (htsub _ h)
      · simp at h)]
    rw [if_neg (by
      intro hmem
      rcases List.mem_append.mp hmem with h | h
      · exact hnt_ods (htsub _ h)
      · simp at h)]
  · rw [if_neg hss]
    unfold mark_for_on_demand_step
    rw [if_neg hcf]
    dsimp only
    rw [pipe_tag_update_tags _ _ _ _ _ hc, if_pos hpend]
    rw [procTagCount_eq]
    rw [if_neg (by
      intro hmem
      rcases List.mem_append.mp hmem with h | h
      · have := (List.mem_filter.mp h).2
        simp at this
      · simp at h)]
    rw [if_neg (by
      intro hmem
      rcases List.mem_append.mp hmem with h | h
      · exact h1 (List.mem_filter.mp h).1
      · simp at h)]
    rw [if_pos (by
      refine List.mem_append.mpr (Or.inr ?_)
      simp)]
    rw [if_neg (by
      intro hmem
      rcases List.mem_append.mp hmem with h | h
      · exact h3 (List.mem_filter.mp h).1
      · simp at h)]

/-- Witness for C4 at the concrete store: user `u`, fresh pending content
1. -/
theorem tag_exclusive_after_first_process_w :
    procTagCount (contentTags (process_new_content envOk dbM 1 "u").2 1) = 1 :=
  tag_exclusive_after_first_process envOk dbM 1 "u" cPending (by decide) (by decide)
    (by decide) (by decide) (by decide) (by decide) (by decide) (by decide)

/-! ## C3: idempotence of `process_new_content` -/

theorem ddAux_of_nil_seen (x : List String) : ddAux [] x = dedupFirst x := rfl

theorem dedupFirst_idem_append (x y : List String) :
    dedupFirst (dedupFirst x ++ y) = dedupFirst (x ++ y) := by
  unfold dedupFirst
  rw [ddAux_append, ddAux_append]
  rw [ddAux_of_nodup (ddAux [] x) [] (nodup_ddAux x []) (fun z _ hz => by cases hz)]
  congr 1
  apply ddAux_congr
  intro z
  rw [List.nil_append, List.nil_append, ddAux_of_nil_seen, mem_dedupFirst]

/-- The tag merge in normal form: first-occurrence dedup of the existing
tags followed by `restList`, capped at 15. -/
theorem improvedTags_norm (tags0 : List String) (lang title : String) (A : List String) :
    improvedTags tags0 lang title A =
      (dedupFirst ((if "pending_summary" ∈ tags0 then tags0.erase "pending_summary" else tags0) ++
        restList lang title A)).take 15 := by
  unfold improvedTags restList
  dsimp only
  simp only [List.append_assoc]
  rw [dedupFirst_idem_append]
  simp only [List.append_assoc]

theorem pending_not_mem_restList (lang title : String) (A : List String)
    (hA : "pending_summary" ∉ A) :
    "pending_summary" ∉ restList lang title A := by
  unfold restList
  intro hmem
  rcases List.mem_append.mp hmem with h | h
  · exact hA h
  · rcases List.mem_append.mp h with h | h
    · simp at h
    · rcases List.mem_append.mp h with h | h
      · rcases List.mem_cons.mp h with h | h
        · by_cases hl : lang == "ko"
          · rw [if_pos hl] at h
            exact absurd h (by decide)
          · rw [if_neg hl] at h
            exact absurd h (by decide)
        · cases h
      · rcases List.mem_append.mp h with h | h
        · have := mem_of_mem_ite_nil _ _ _ h
          simp at this
        · rcases List.mem_append.mp h with h | h
          · have := mem_of_mem_ite_nil _ _ _ h
            simp at this
          · have := mem_of_mem_ite_nil _ _ _ h
            simp at this

theorem mem_of_mem_dedup_take (y : List String) (x : String) (n : Nat)
    (hx : x ∈ (dedupFirst y).take n) : x ∈ y := by
  have := List.mem_of_mem_take hx
  rwa [mem_dedupFirst] at this

/-- Core stability of the capped dedup merge: re-merging the capped result
(with any tags `af` appended) against the same suffix `R` does not change
the resulting tag set. -/
theorem dedup_take_stable (E R af : List String) :
    ((dedupFirst ((dedupFirst (E ++ R)).take 15 ++ af ++ R)).take 15 ++ af).toFinset =
    ((dedupFirst (E ++ R)).take 15 ++ af).toFinset := by
  set D := dedupFirst (E ++ R) with hD
  have hR : ∀ x ∈ R, x ∈ D := by
    intro x hx
    rw [hD, mem_dedupFirst]
    exact List.mem_append.mpr (Or.inr hx)
  have hI1nd : (D.take 15).Nodup :=
    (hD ▸ nodup_dedupFirst (E ++ R)).sublist (List.take_sublist 15 _)
  have hsplit : dedupFirst (D.take 15 ++ af ++ R) =
      D.take 15 ++ (ddAux (D.take 15) af ++ ddAux (D.take 15 ++ af) R) := by
    show ddAux [] (D.take 15 ++ af ++ R) = _
    rw [List.append_assoc, ddAux_append,
      ddAux_of_nodup (D.take 15) [] hI1nd (fun z _ hz => by cases hz), List.nil_append,
      ddAux_append]
  rw [hsplit]
  by_cases h15 : 15 ≤ D.length
  · have hlen : (D.take 15).length = 15 := by
      rw [List.length_take]
      omega
    rw [List.take_append_eq_append_take, List.take_of_length_le (le_of_eq hlen), hlen]
    simp
  · have hI1 : D.take 15 = D := List.take_of_length_le (by omega)
    have hY : ddAux (D.take 15 ++ af) R = [] := by
      apply ddAux_nil_of_all_seen
      intro x hx
      rw [hI1]
      exact List.mem_append.mpr (Or.inl (hR x hx))
    have hXsub : ∀ x ∈ ddAux (D.take 15) af, x ∈ af := by
      intro x hx
      exact ((mem_ddAux x af _).mp hx).1
    rw [hY, List.append_nil, List.take_append_eq_append_take,
      List.take_of_length_le (le_of_lt (by rw [hI1]; omega))]
    ext z
    simp only [List.mem_toFinset, List.mem_append]
    constructor
    · rintro ((hz | hz) | hz)
      · exact Or.inl hz
      · exact Or.inr (hXsub z (List.mem_of_mem_take hz))
      · exact Or.inr hz
    · rintro (hz | hz)
      · exact Or.inl (Or.inl hz)
      · exact Or.inr hz

theorem pipe_tag_update_row (db : DB) (cid : Nat) (drop : String) (add : List String)
    (c : ContentItem) (hc : db.contents.find? (fun x => x.id == cid) = some c) :
    (pipe_tag_update db cid drop add).contents.find? (fun x => x.id == cid) =
      some { c with tags := (if drop ∈ c.tags
                             then c.tags.filter (fun tag => tag != drop) else c.tags) ++ add } := by
  unfold pipe_tag_update
  rw [hc]
  dsimp only
  rw [find?_updateContent_tags, hc]
  rfl

theorem pipe_tag_update_none (db : DB) (cid : Nat) (drop : String) (add : List String)
    (hc : db.contents.find? (fun x => x.id == cid) = none) :
    pipe_tag_update db cid drop add = db := by
  unfold pipe_tag_update
  rw [hc]

theorem pipe_tag_update_followings (db : DB) (cid : Nat) (d : String) (a : List String) :
    (pipe_tag_update db cid d a).followings = db.followings := by
  unfold pipe_tag_update
  split <;> rfl

theorem pipe_tag_update_mentions (db : DB) (cid : Nat) (d : String) (a : List String) :
    (pipe_tag_update db cid d a).mentions = db.mentions := by
  unfold pipe_tag_update
  split <;> rfl

theorem pipe_tag_update_companies (db : DB) (cid : Nat) (d : String) (a : List String) :
    (pipe_tag_update db cid d a).companies = db.companies := by
  unfold pipe_tag_update
  split <;> rfl

theorem pipe_tag_update_cache (db : DB) (cid : Nat) (d : String) (a : List String) :
    (pipe_tag_update db cid d a).cache = db.cache := by
  unfold pipe_tag_update
  split <;> rfl

theorem pipe_tag_update_aiCalls (db : DB) (cid : Nat) (d : String) (a : List String) :
    (pipe_tag_update db cid d a).aiCalls = db.aiCalls := by
  unfold pipe_tag_update
  split <;> rfl

/-- The matcher reads only the three relational tables. -/
theorem matcher_same (db1 db2 : DB) (cid : Nat) (u : String)
    (h1 : db1.companies = db2.companies) (h2 : db1.followings = db2.followings)
    (h3 : db1.mentions = db2.mentions) :
    should_auto_summarize (DB.matcherStore db1) cid u =
      should_auto_summarize (DB.matcherStore db2) cid u := by
  unfold DB.matcherStore
  rw [h1, h2, h3]

theorem aiStep_hit (env : Env) (db : DB) (c : ContentItem) (e : CacheEntry)
    (h : get_cached_result db c.hash = some e) :
    aiStep env db c =
      ({ status := "cached", summary_bullets := e.summary_bullets, tags := e.tags,
         insight := e.insight }, db) := by
  unfold aiStep
  rw [h]

theorem get_cached_result_updateContent (db : DB) (cid : Nat) (f : ContentItem → ContentItem)
    (h : String) : get_cached_result (updateContent db cid f) h = get_cached_result db h := rfl

theorem get_cached_result_congr (db1 db2 : DB) (h : String) (hc : db1.cache = db2.cache) :
    get_cached_result db1 h = get_cached_result db2 h := by
  unfold get_cached_result
  rw [hc]

/-- After a summarize attempt that hit the cache or whose provider call
succeeded, the cache holds the content's hash, with exactly the AI tags
the attempt used. -/
theorem cache_after_task (env : Env) (db : DB) (cid : Nat) (c : ContentItem)
    (hc : db.contents.find? (fun x => x.id == cid) = some c)
    (hp : (get_cached_result db c.hash).isSome ∨
      (call_openai_summary env.provider c).status = "success") :
    ∃ e2, get_cached_result (summarize_task env db cid).2 c.hash = some e2 ∧
      e2.tags = usedAiTags env db c := by
  unfold summarize_task
  rw [hc]
  dsimp only
  rw [get_cached_result_updateContent]
  cases hcc : get_cached_result db c.hash with
  | some e =>
    rw [aiStep_hit env db c e hcc]
    refine ⟨e, hcc, ?_⟩
    unfold usedAiTags
    rw [hcc]
  | none =>
    rcases hp with hp | hp
    · rw [hcc] at hp
      cases hp
    · unfold aiStep
      rw [hcc]
      dsimp only
      rw [if_pos (by rw [hp]; decide)]
      refine ⟨{ content_hash := c.hash, model_version := MODEL_VERSION,
                summary_bullets := (call_openai_summary env.provider c).summary_bullets,
                tags := (call_openai_summary env.provider c).tags,
                insight := (call_openai_summary env.provider c).insight }, ?_, ?_⟩
      · unfold get_cached_result at hcc ⊢
        dsimp only
        rw [List.find?_append, hcc]
        simp
      · unfold usedAiTags
        rw [hcc]

theorem summarize_task_aiCalls_hit (env : Env) (db : DB) (cid : Nat) (c : ContentItem)
    (e : CacheEntry) (hc : db.contents.find? (fun x => x.id == cid) = some c)
    (he : get_cached_result db c.hash = some e) :
    (summarize_task env db cid).2.aiCalls = db.aiCalls := by
  unfold summarize_task
  rw [hc]
  dsimp only
  rw [updateContent_aiCalls, aiStep_hit env db c e he]

/-- Counterexample to C3 as stated: with a provider that fails, the first
`process_new_content` spends a provider call whose failed result is not
cached, and the second call spends another one — the second call does
increment the AI-provider invocation count. -/
theorem process_idempotent_cex :
    (process_new_content envFail dbM 1 "u").2.aiCalls = 1 ∧
    (process_new_content envFail (process_new_content envFail dbM 1 "u").2 1 "u").2.aiCalls = 2 := by
  decide

/-- C3 amended: `process_new_content` twice equals once — same final tag
set, no second AI spend — provided the first call's AI resolution
succeeds (cache hit or successful provider call; a failed attempt is not
cached and is retried, see the counterexample), the pipeline commit does
not raise, `pending_summary` occurs at most once in the stored tags, and
the AI tags used do not re-introduce `pending_summary` (otherwise the
15-tag cap interacts with the re-appended tags and can shift the set). -/
theorem process_new_content_idempotent (env : Env) (db : DB) (cid : Nat) (u : String)
    (hprov : ∀ c, db.contents.find? (fun x => x.id == cid) = some c →
      ((get_cached_result db c.hash).isSome ∨
        (call_openai_summary env.provider c).status = "success"))
    (hpd : ∀ c, db.contents.find? (fun x => x.id == cid) = some c →
      "pending_summary" ∉ c.tags.erase "pending_summary")
    (hai : ∀ c, db.contents.find? (fun x => x.id == cid) = some c →
      "pending_summary" ∉ usedAiTags env db c)
    (hcf : cid ∉ env.commitFailures) :
    tagSet (process_new_content env (process_new_content env db cid u).2 cid u).2 cid =
      tagSet (process_new_content env db cid u).2 cid ∧
    (process_new_content env (process_new_content env db cid u).2 cid u).2.aiCalls =
      (process_new_content env db cid u).2.aiCalls := by
  by_cases hss : (should_auto_summarize (DB.matcherStore db) cid u).should_summarize
  case neg =>
    have hstep1 : (process_new_content env db cid u).2 =
        pipe_tag_update db cid "pending_summary" ["on_demand_available"] := by
      unfold process_new_content mark_for_on_demand_step
      rw [if_neg hss, if_neg hcf]
    have hmr : should_auto_summarize
        (DB.matcherStore (pipe_tag_update db cid "pending_summary" ["on_demand_available"])) cid u =
        should_auto_summarize (DB.matcherStore db) cid u :=
      matcher_same _ _ cid u (pipe_tag_update_companies db cid _ _)
        (pipe_tag_update_followings db cid _ _) (pipe_tag_update_mentions db cid _ _)
    have hstep2 : (process_new_content env
        (pipe_tag_update db cid "pending_summary" ["on_demand_available"]) cid u).2 =
        pipe_tag_update (pipe_tag_update db cid "pending_summary" ["on_demand_available"]) cid
          "pending_summary" ["on_demand_available"] := by
      unfold process_new_content mark_for_on_demand_step
      rw [hmr, if_neg hss, if_neg hcf]
    rw [hstep1, hstep2]
    refine ⟨?_, by rw [pipe_tag_update_aiCalls]⟩
    cases hcdb : db.contents.find? (fun x => x.id == cid) with
    | none =>
      rw [pipe_tag_update_none db cid _ _ hcdb, pipe_tag_update_none db cid _ _ hcdb]
    | some c =>
      have hrow1 := pipe_tag_update_row db cid "pending_summary" ["on_demand_available"] c hcdb
      have hp1 : "pending_summary" ∉
          (if "pending_summary" ∈ c.tags
           then c.tags.filter (fun tag => tag != "pending_summary") else c.tags) ++
            ["on_demand_available"] := by
        intro hmem
        rcases List.mem_append.mp hmem with h | h
        · by_cases hp : "pending_summary" ∈ c.tags
          · rw [if_pos hp] at h
            have := (List.mem_filter.mp h).2
            simp at this
          · rw [if_neg hp] at h
            exact hp h
        · simp at h
      have ht1 := pipe_tag_update_tags db cid "pending_summary" ["on_demand_available"] c hcdb
      have ht2 := pipe_tag_update_tags
        (pipe_tag_update db cid "pending_summary" ["on_demand_available"]) cid
        "pending_summary" ["on_demand_available"] _ hrow1
      dsimp only at ht2
      rw [if_neg hp1] at ht2
      unfold tagSet
      rw [ht1, ht2, List.toFinset_append]
      apply Finset.union_eq_left.mpr
      intro z hz
      simp only [List.toFinset_cons, List.toFinset_nil, insert_emptyc_eq,
        Finset.mem_singleton] at hz
      subst hz
      rw [List.mem_toFinset]
      exact List.mem_append.mpr (Or.inr (by simp))
  case pos =>
    cases hcdb : db.contents.find? (fun x => x.id == cid) with
    | none =>
      have hnf := summarize_task_not_found env db cid hcdb
      have hstep1 : (process_new_content env db cid u).2 = db := by
        unfold process_new_content auto_summarize_step
        rw [if_pos hss, if_neg hcf, hnf]
        dsimp only
        rw [pipe_tag_update_none db cid _ _ hcdb]
      rw [hstep1]
      exact ⟨by rw [hstep1], by rw [hstep1]⟩
    | some c =>
      have hprov' := hprov c hcdb
      have hai' := hai c hcdb
      have hpd' := hpd c hcdb
      have hrow1 := summarize_task_row env db cid c hcdb
      rw [aiStep_tags, improvedTags_norm] at hrow1
      have hpnt : "pending_summary" ∉
          (dedupFirst ((if "pending_summary" ∈ c.tags
            then c.tags.erase "pending_summary" else c.tags) ++
            restList c.lang c.title (usedAiTags env db c))).take 15 := by
        intro hmem
        have hm2 := mem_of_mem_dedup_take _ _ _ hmem
        rcases List.mem_append.mp hm2 with h | h
        · by_cases hp : "pending_summary" ∈ c.tags
          · rw [if_pos hp] at h
            exact hpd' h
          · rw [if_neg hp] at h
            exact hp h
        · exact pending_not_mem_restList _ _ _ hai' h
      have hstep1 : (process_new_content env db cid u).2 =
          pipe_tag_update (summarize_task env db cid).2 cid "pending_summary"
            ["auto_summarized", "following_company"] := by
        unfold process_new_content auto_summarize_step
        rw [if_pos hss, if_neg hcf]
      have hrow1' := pipe_tag_update_row (summarize_task env db cid).2 cid "pending_summary"
        ["auto_summarized", "following_company"] _ hrow1
      dsimp only at hrow1'
      rw [if_neg hpnt] at hrow1'
      obtain ⟨e2, he2, he2tags⟩ := cache_after_task env db cid c hcdb hprov'
      have he2' : get_cached_result
          (pipe_tag_update (summarize_task env db cid).2 cid "pending_summary"
            ["auto_summarized", "following_company"]) c.hash = some e2 := by
        rw [get_cached_result_congr _ (summarize_task env db cid).2 c.hash
          (pipe_tag_update_cache _ _ _ _)]
        exact he2
      have hmr : should_auto_summarize
          (DB.matcherStore (pipe_tag_update (summarize_task env db cid).2 cid "pending_summary"
            ["auto_summarized", "following_company"])) cid u =
          should_auto_summarize (DB.matcherStore db) cid u :=
        matcher_same _ _ cid u
          (by rw [pipe_tag_update_companies]; exact summarize_task_companies env db cid)
          (by rw [pipe_tag_update_followings]; exact summarize_task_followings env db cid)
          (by rw [pipe_tag_update_mentions]; exact summarize_task_mentions env db cid)
      have hstep2 : (process_new_content env
          (pipe_tag_update (summarize_task env db cid).2 cid "pending_summary"
            ["auto_summarized", "following_company"]) cid u).2 =
          pipe_tag_update (summarize_task env
            (pipe_tag_update (summarize_task env db cid).2 cid "pending_summary"
              ["auto_summarized", "following_company"]) cid).2 cid "pending_summary"
            ["auto_summarized", "following_company"] := by
        unfold process_new_content auto_summarize_step
        rw [hmr, if_pos hss, if_neg hcf]
      have hrow2 := summarize_task_row env
        (pipe_tag_update (summarize_task env db cid).2 cid "pending_summary"
          ["auto_summarized", "following_company"]) cid _ hrow1'
      have hhit := aiStep_hit env
        (pipe_tag_update (summarize_task env db cid).2 cid "pending_summary"
          ["auto_summarized", "following_company"])
        { c with
            summary_bullets := (aiStep env db c).1.summary_bullets,
            insight := (aiStep env db c).1.insight,
            tags := (dedupFirst ((if "pending_summary" ∈ c.tags
                then c.tags.erase "pending_summary" else c.tags) ++
                restList c.lang c.title (usedAiTags env db c))).take 15 ++
              ["auto_summarized", "following_company"] }
        e2 he2'
      rw [hhit] at hrow2
      dsimp only at hrow2
      rw [he2tags, improvedTags_norm] at hrow2
      have hnaf : "pending_summary" ∉
          (dedupFirst ((if "pending_summary" ∈ c.tags
            then c.tags.erase "pending_summary" else c.tags) ++
            restList c.lang c.title (usedAiTags env db c))).take 15 ++
            ["auto_summarized", "following_company"] := by
        intro hmem
        rcases List.mem_append.mp hmem with h | h
        · exact hpnt h
        · simp at h
      rw [if_neg hnaf] at hrow2
      have hpnt2 : "pending_summary" ∉
          (dedupFirst (((dedupFirst ((if "pending_summary" ∈ c.tags
            then c.tags.erase "pending_summary" else c.tags) ++
            restList c.lang c.title (usedAiTags env db c))).take 15 ++
            ["auto_summarized", "following_company"]) ++
            restList c.lang c.title (usedAiTags env db c))).take 15 := by
        intro hmem
        have hm2 := mem_of_mem_dedup_take _ _ _ hmem
        rcases List.mem_append.mp hm2 with h | h
        · exact hnaf h
        · exact pending_not_mem_restList _ _ _ hai' h
      have hrow2' := pipe_tag_update_row (summarize_task env
          (pipe_tag_update (summarize_task env db cid).2 cid "pending_summary"
            ["auto_summarized", "following_company"]) cid).2 cid "pending_summary"
        ["auto_summarized", "following_company"] _ hrow2
      dsimp only at hrow2'
      rw [if_neg hpnt2] at hrow2'
      rw [hstep1, hstep2]
      constructor
      · unfold tagSet contentTags
        rw [hrow1', hrow2']
        dsimp only
        exact dedup_take_stable _ _ _
      · rw [pipe_tag_update_aiCalls]
        exact summarize_task_aiCalls_hit env _ cid _ e2 hrow1' he2'

/-- Witness for C3 at the concrete store: a successful provider, fresh
pending content 1, matching user `u`. -/
theorem process_new_content_idempotent_w :
    tagSet (process_new_content envOk (process_new_content envOk dbM 1 "u").2 1 "u").2 1 =
      tagSet (process_new_content envOk dbM 1 "u").2 1 :=
  (process_new_content_idempotent envOk dbM 1 "u"
    (fun c hc => by
      rw [show dbM.contents.find? (fun x => x.id == 1) = some cPending from by decide] at hc
      cases hc
      right
      decide)
    (fun c hc => by
      rw [show dbM.contents.find? (fun x => x.id == 1) = some cPending from by decide] at hc
      cases hc
      decide)
    (fun c hc => by
      rw [show dbM.contents.find? (fun x => x.id == 1) = some cPending from by decide] at hc
      cases hc
      decide)
    (by decide)).1

end TB
